import Mathlib

/-!
A verification development for the `semver` package (semver.go): a
format validator (`Valid`, a compiled regular expression), a parser
(`buildVersion`, built on `strings.SplitN`, `strings.Split` and
`strconv.Atoi`), and the comparison operations `GreaterThanOrEqual`,
`SmallerThanOrEqual` and `InRange`.

Strings are modelled through their character lists (`String.data`).
Go functions returning `(value, error)` pairs are modelled as
`Bool × Option String` (comparisons) or `Except String _` (the parser);
`errors.Trace` only decorates an error with a stack trace and leaves the
message intact, so it is modelled as the identity on the message.
Go's `int` is 64 bits wide on the reference platform, so `strconv.Atoi`
fails outside `[-2^63, 2^63 - 1]`; integers are modelled as `Int` with
that explicit range check.
-/

namespace Semver

/-! ### Character classes of the validation pattern

The pattern compiled in `New` (semver.go lines 158-159) is
`^(0|[1-9]\d*)\.(0|[1-9]\d*)\.(0|[1-9]\d*)`
`(?:-((?:0|[1-9]\d*|\d*[a-zA-Z-][0-9a-zA-Z-]*)(?:\.(?:0|[1-9]\d*|\d*[a-zA-Z-][0-9a-zA-Z-]*))*))?`
`(?:\+([0-9a-zA-Z-]+(?:\.[0-9a-zA-Z-]+)*))?$`.
Character classes are decided on the character's code point. -/

/-- The class `\d`, i.e. `[0-9]` (code points 48-57). -/
def isDigit (c : Char) : Bool := 48 ≤ c.toNat && c.toNat ≤ 57

/-- The class `[1-9]` (code points 49-57). -/
def isNonZeroDigit (c : Char) : Bool := 49 ≤ c.toNat && c.toNat ≤ 57

/-- The class `[a-zA-Z]` (code points 65-90 and 97-122). -/
def isLetter (c : Char) : Bool :=
  (65 ≤ c.toNat && c.toNat ≤ 90) || (97 ≤ c.toNat && c.toNat ≤ 122)

/-- The class `[0-9a-zA-Z-]`. -/
def isAlnumDash (c : Char) : Bool := isDigit c || isLetter c || c == '-'

/-- The class `[a-zA-Z-]`. -/
def isLetterDash (c : Char) : Bool := isLetter c || c == '-'

/-! ### List machinery shared by the pattern and `strings` functions -/

/-- Model of `strings.Contains(s, sep)` for a one-character separator. -/
def containsChar (sep : Char) : List Char → Bool
  | [] => false
  | c :: cs => c == sep || containsChar sep cs

/-- Splits a list at the first occurrence of `sep`; `none` when `sep`
does not occur.  The pair holds the characters strictly before and
strictly after that first occurrence. -/
def breakAt (sep : Char) : List Char → Option (List Char × List Char)
  | [] => none
  | c :: cs =>
    if c == sep then some ([], cs)
    else
      match breakAt sep cs with
      | none => none
      | some (a, b) => some (c :: a, b)

/-- Model of `strings.SplitN(s, sep, 2)` for a one-character separator:
at most one split, performed at the first occurrence of `sep`. -/
def splitN2 (sep : Char) (l : List Char) : List (List Char) :=
  match breakAt sep l with
  | none => [l]
  | some (a, b) => [a, b]

/-- Model of `strings.Split(s, sep)` for a one-character separator:
splits at every occurrence of `sep`, keeping empty fields, so the
result has one more element than there are occurrences of `sep`. -/
def splitOnChar (sep : Char) : List Char → List (List Char)
  | [] => [[]]
  | c :: cs =>
    match splitOnChar sep cs with
    | [] => [[]]
    | p :: ps => if c == sep then [] :: p :: ps else (c :: p) :: ps

/-! ### The validation pattern as a language membership test

The pattern is anchored on both sides, so `regexp.MatchString` decides
membership of the whole string in the pattern's language.  Membership
is decided here by the unique decomposition the pattern admits:
`'+'` occurs in no core or pre-release piece and in no build-metadata
character class, so a matching string contains at most one `'+'`, which
separates the build metadata; likewise `'-'` occurs in no core piece,
so within the part before the `'+'` the first `'-'` separates the
pre-release tag.  A repetition `X(\.X)*` whose pieces are non-empty and
dot-free holds exactly the strings all of whose dot-separated fields
match `X`. -/

/-- The group `0|[1-9]\d*`: a single `0`, or a non-zero digit followed
by digits (no leading zeros). -/
def matchNumeric : List Char → Bool
  | [] => false
  | c :: cs => (c == '0' && cs.isEmpty) || (isNonZeroDigit c && cs.all isDigit)

/-- One pre-release identifier, `0|[1-9]\d*|\d*[a-zA-Z-][0-9a-zA-Z-]*`:
either numeric without leading zeros, or a non-empty word of
`[0-9a-zA-Z-]` containing at least one character of `[a-zA-Z-]`
(the digits before the first such character are exactly the `\d*`). -/
def matchPrereleaseId (l : List Char) : Bool :=
  matchNumeric l || (l.all isAlnumDash && l.any isLetterDash)

/-- The pre-release group: one or more dot-separated identifiers. -/
def matchPrerelease (pre : List Char) : Bool :=
  (splitOnChar '.' pre).all matchPrereleaseId

/-- The build-metadata group: one or more dot-separated non-empty
words of `[0-9a-zA-Z-]`. -/
def matchBuild (build : List Char) : Bool :=
  (splitOnChar '.' build).all (fun p => !p.isEmpty && p.all isAlnumDash)

/-- The mandatory core `(0|[1-9]\d*)\.(0|[1-9]\d*)\.(0|[1-9]\d*)`:
exactly three dot-separated numeric fields. -/
def matchCore (core : List Char) : Bool :=
  match splitOnChar '.' core with
  | [p0, p1, p2] => matchNumeric p0 && matchNumeric p1 && matchNumeric p2
  | _ => false

/-- The part before the optional `+`: the core with an optional
`-`-separated pre-release tag. -/
def validMain (main : List Char) : Bool :=
  match breakAt '-' main with
  | none => matchCore main
  | some (core, pre) => matchCore core && matchPrerelease pre

/-- Membership in the language of the full anchored pattern. -/
def validChars (cs : List Char) : Bool :=
  match breakAt '+' cs with
  | none => validMain cs
  | some (main, build) => validMain main && matchBuild build

/-- `Valid` (semver.go lines 31-34): `s.reValid.MatchString(version)`,
with the fixed pattern compiled in `New`.  Total: every string is either
accepted or rejected. -/
def Valid (version : String) : Bool := validChars version.data

/-! ### The parser `buildVersion` and `strconv.Atoi` -/

/-- The struct `semVersion` (semver.go lines 36-41). -/
structure semVersion where
  major : Int
  minor : Int
  revision : Int
  tag : String
deriving DecidableEq

/-- Decimal value of a digit string, most significant digit first, as
accumulated by `strconv.Atoi`. -/
def digitsToNat (l : List Char) : Nat :=
  l.foldl (fun a c => 10 * a + (c.toNat - 48)) 0

/-- Largest value of Go's `int` on a 64-bit platform, `2^63 - 1`. -/
def intMax : Int := 9223372036854775807

/-- Smallest value of Go's `int` on a 64-bit platform, `-2^63`. -/
def intMin : Int := -9223372036854775808

/-- Message of `strconv.Atoi`'s syntax error. -/
def atoiSyntaxError (s : List Char) : String :=
  "strconv.Atoi: parsing \"" ++ String.mk s ++ "\": invalid syntax"

/-- Message of `strconv.Atoi`'s range error. -/
def atoiRangeError (s : List Char) : String :=
  "strconv.Atoi: parsing \"" ++ String.mk s ++ "\": value out of range"

/-- Message of the parts-count error (semver.go line 134). -/
def partsCountError (n : Nat) : String :=
  "versions should be 2 or 3 parts. Got " ++ toString n

/-- Message of the chunks-count error (semver.go line 126). -/
def chunksCountError (n : Nat) : String :=
  "versions with a tag should be 2 chunks. Got " ++ toString n

/-- Model of `strconv.Atoi`: an optional sign followed by at least one
digit, anything else is a syntax error; values outside the range of a
64-bit `int` are a range error. -/
def Atoi (s : List Char) : Except String Int :=
  let neg : Bool :=
    match s with
    | c :: _ => c == '-'
    | [] => false
  let digits : List Char :=
    match s with
    | c :: rest => if c == '+' || c == '-' then rest else s
    | [] => s
  if digits.isEmpty || !digits.all isDigit then .error (atoiSyntaxError s)
  else
    let v : Int := if neg then -(digitsToNat digits : Int) else (digitsToNat digits : Int)
    if v < intMin ∨ intMax < v then .error (atoiRangeError s)
    else .ok v

/-- The dot-splitting half of `buildVersion` (semver.go lines 131-151):
split the tag-stripped core on `.`, accept exactly 2 or 3 parts, parse
major and minor (and, with 3 parts, the revision; with 2 parts the
revision stays at its zero value), surfacing `Atoi` failures in field
order. -/
def parseCore (core : List Char) (tag : List Char) : Except String semVersion :=
  match splitOnChar '.' core with
  | [p0, p1] =>
    match Atoi p0 with
    | .error e => .error e
    | .ok major =>
      match Atoi p1 with
      | .error e => .error e
      | .ok minor => .ok ⟨major, minor, 0, String.mk tag⟩
  | [p0, p1, p2] =>
    match Atoi p0 with
    | .error e => .error e
    | .ok major =>
      match Atoi p1 with
      | .error e => .error e
      | .ok minor =>
        match Atoi p2 with
        | .error e => .error e
        | .ok revision => .ok ⟨major, minor, revision, String.mk tag⟩
  | parts => .error (partsCountError parts.length)

/-- `buildVersion` (semver.go lines 121-152): when the string contains a
`-`, `strings.SplitN(version, "-", 2)` must yield exactly two chunks,
the second becoming the tag verbatim and the first the core; then the
core is parsed by `parseCore`. -/
def buildVersion (version : String) : Except String semVersion :=
  if containsChar '-' version.data then
    match splitN2 '-' version.data with
    | [core, tag] => parseCore core tag
    | chunks => .error (chunksCountError chunks.length)
  else
    parseCore version.data []

/-! ### The comparison operations -/

/-- Message of the first-operand validation error (semver.go lines 62, 93). -/
def invalidVersionError (v : String) : String := "version `" ++ v ++ "` is invalid"

/-- Message of the second-operand validation error (semver.go lines 65, 96). -/
def invalidCompareError (c : String) : String := "compare `" ++ c ++ "` is invalid"

/-- The comparison chain of `GreaterThanOrEqual` (semver.go lines 75-87). -/
def goCompareGe (a b : semVersion) : Bool :=
  if a.major < b.major then false
  else if a.major > b.major then true
  else if a.minor < b.minor then false
  else if a.minor > b.minor then true
  else decide (a.revision ≥ b.revision)

/-- The comparison chain of `SmallerThanOrEqual` (semver.go lines 106-118). -/
def goCompareLe (a b : semVersion) : Bool :=
  if a.major > b.major then false
  else if a.major < b.major then true
  else if a.minor > b.minor then false
  else if a.minor < b.minor then true
  else decide (a.revision ≤ b.revision)

/-- `GreaterThanOrEqual` (semver.go lines 60-88). -/
def GreaterThanOrEqual (version compare : String) : Bool × Option String :=
  if !Valid version then (false, some (invalidVersionError version))
  else if !Valid compare then (false, some (invalidCompareError compare))
  else
    match buildVersion version with
    | .error e => (false, some e)
    | .ok semVer =>
      match buildVersion compare with
      | .error e => (false, some e)
      | .ok semCompare => (goCompareGe semVer semCompare, none)

/-- `SmallerThanOrEqual` (semver.go lines 91-119). -/
def SmallerThanOrEqual (version compare : String) : Bool × Option String :=
  if !Valid version then (false, some (invalidVersionError version))
  else if !Valid compare then (false, some (invalidCompareError compare))
  else
    match buildVersion version with
    | .error e => (false, some e)
    | .ok semVer =>
      match buildVersion compare with
      | .error e => (false, some e)
      | .ok semCompare => (goCompareLe semVer semCompare, none)

/-- `InRange` (semver.go lines 44-57): the lower bound is always
checked; with a non-empty `endv` the upper bound is checked as well,
the first failure of either check being propagated; an empty `endv`
leaves the upper-bound flag at its initial `true`. -/
def InRange (version start endv : String) : Bool × Option String :=
  match GreaterThanOrEqual version start with
  | (_, some err) => (false, some err)
  | (greaterThanOrEqual, none) =>
    if endv ≠ "" then
      match SmallerThanOrEqual version endv with
      | (_, some err) => (false, some err)
      | (smallerThanOrEqual, none) => (greaterThanOrEqual && smallerThanOrEqual, none)
    else (greaterThanOrEqual && true, none)

/-! ### Derived notions used in the statements -/

/-- Whether an `Except` result is a success. -/
def exceptIsOk : Except String semVersion → Bool
  | .ok _ => true
  | .error _ => false

/-- The tag-stripped core of a string: the characters before the first
`-`, or the whole string when there is none (the part `buildVersion`
splits on dots). -/
def coreOf (cs : List Char) : List Char :=
  match breakAt '-' cs with
  | none => cs
  | some (a, _) => a

/-- Every dot-separated field of the tag-stripped core has at most 18
digits, so its value stays below `10^18 < 2^63`. -/
def smallCore (cs : List Char) : Bool :=
  (splitOnChar '.' (coreOf cs)).all (fun p => p.length ≤ 18)

instance {ε α : Type} [DecidableEq ε] [DecidableEq α] : DecidableEq (Except ε α) := fun
  | .ok a, .ok b =>
    if h : a = b then .isTrue (by rw [h])
    else .isFalse (fun hh => h (Except.ok.inj hh))
  | .error e, .error f =>
    if h : e = f then .isTrue (by rw [h])
    else .isFalse (fun hh => h (Except.error.inj hh))
  | .ok _, .error _ => .isFalse (fun hh => Except.noConfusion hh)
  | .error _, .ok _ => .isFalse (fun hh => Except.noConfusion hh)

/-! ### Lemmas about the splitting machinery -/

theorem containsChar_false_iff (sep : Char) (l : List Char) :
    containsChar sep l = false ↔ breakAt sep l = none := by
  induction l with
  | nil => simp [containsChar, breakAt]
  | cons c cs ih =>
    cases hc : c == sep with
    | true => simp [containsChar, breakAt, hc]
    | false =>
      simp only [containsChar, breakAt, hc, Bool.false_or, Bool.false_eq_true,
        if_false]
      rw [ih]
      cases hb : breakAt sep cs with
      | none => simp [hb]
      | some p =>
        cases p
        simp [hb]

theorem containsChar_true_break (sep : Char) (l : List Char)
    (h : containsChar sep l = true) : ∃ a b, breakAt sep l = some (a, b) := by
  cases hb : breakAt sep l with
  | none =>
    rw [← containsChar_false_iff] at hb
    rw [h] at hb
    exact absurd hb (by simp)
  | some p =>
    cases p with
    | mk a b => exact ⟨a, b, rfl⟩

/-! ### Lemmas about numeric fields and `Atoi` -/

theorem matchNumeric_shape (l : List Char) (h : matchNumeric l = true) :
    ∃ c cs, l = c :: cs ∧ isDigit c = true ∧ cs.all isDigit = true := by
  cases l with
  | nil => exact absurd h (by simp [matchNumeric])
  | cons c cs =>
    simp only [matchNumeric, Bool.or_eq_true, Bool.and_eq_true] at h
    rcases h with ⟨h1, h2⟩ | ⟨h1, h2⟩
    · have hc : c = '0' := eq_of_beq h1
      have hcs : cs = [] := by
        simp only [List.isEmpty_iff] at h2
        exact h2
      subst hc
      subst hcs
      exact ⟨'0', [], rfl, by decide, by decide⟩
    · refine ⟨c, cs, rfl, ?_, h2⟩
      simp only [isNonZeroDigit, Bool.and_eq_true, decide_eq_true_eq] at h1
      simp only [isDigit, Bool.and_eq_true, decide_eq_true_eq]
      omega

theorem digitsToNat_aux_lt (l : List Char) (h : l.all isDigit = true) :
    ∀ a : Nat, l.foldl (fun a c => 10 * a + (c.toNat - 48)) a < (a + 1) * 10 ^ l.length := by
  induction l with
  | nil =>
    intro a
    simp only [List.foldl_nil, List.length_nil, pow_zero, mul_one]
    exact Nat.lt_succ_self a
  | cons c cs ih =>
    intro a
    simp only [List.all_cons, Bool.and_eq_true] at h
    have hd : c.toNat - 48 ≤ 9 := by
      have := h.1
      simp only [isDigit, Bool.and_eq_true, decide_eq_true_eq] at this
      omega
    have step : cs.foldl (fun a c => 10 * a + (c.toNat - 48)) (10 * a + (c.toNat - 48)) <
        (10 * a + (c.toNat - 48) + 1) * 10 ^ cs.length := ih h.2 _
    calc List.foldl (fun a c => 10 * a + (c.toNat - 48)) a (c :: cs)
        = cs.foldl (fun a c => 10 * a + (c.toNat - 48)) (10 * a + (c.toNat - 48)) := by
          simp [List.foldl_cons]
      _ < (10 * a + (c.toNat - 48) + 1) * 10 ^ cs.length := step
      _ ≤ ((a + 1) * 10) * 10 ^ cs.length := by
          apply Nat.mul_le_mul_right
          omega
      _ = (a + 1) * 10 ^ (c :: cs).length := by
          simp [List.length_cons, pow_succ]
          ring

theorem digitsToNat_lt (l : List Char) (h : l.all isDigit = true) :
    digitsToNat l < 10 ^ l.length := by
  have := digitsToNat_aux_lt l h 0
  simpa [digitsToNat] using this

theorem isDigit_not_sign (c : Char) (h : isDigit c = true) :
    (c == '+') = false ∧ (c == '-') = false := by
  constructor
  · cases hb : c == '+'
    · rfl
    · have : c = '+' := by simpa using hb
      subst this
      exact absurd h (by decide)
  · cases hb : c == '-'
    · rfl
    · have : c = '-' := by simpa using hb
      subst this
      exact absurd h (by decide)

theorem Atoi_ok_of_numeric (l : List Char) (h : matchNumeric l = true)
    (hlen : l.length ≤ 18) : Atoi l = .ok (digitsToNat l : Int) := by
  obtain ⟨c, cs, rfl, hc, hcs⟩ := matchNumeric_shape l h
  obtain ⟨hplus, hminus⟩ := isDigit_not_sign c hc
  have hall : (c :: cs).all isDigit = true := by simp [List.all_cons, hc, hcs]
  have hbound : digitsToNat (c :: cs) < 1000000000000000000 := by
    have h1 : digitsToNat (c :: cs) < 10 ^ (c :: cs).length := digitsToNat_lt _ hall
    have h2 : (10 : Nat) ^ (c :: cs).length ≤ 10 ^ (18 : Nat) :=
      Nat.pow_le_pow_right (by norm_num) hlen
    have h3 : (10 : Nat) ^ (18 : Nat) = 1000000000000000000 := by norm_num
    omega
  have hrange : ¬((digitsToNat (c :: cs) : Int) < intMin ∨
      intMax < (digitsToNat (c :: cs) : Int)) := by
    simp only [intMin, intMax]
    push_neg
    have hnonneg : (0 : Int) ≤ (digitsToNat (c :: cs) : Int) := Int.ofNat_nonneg _
    have hlt : (digitsToNat (c :: cs) : Int) < 1000000000000000000 := by
      exact_mod_cast hbound
    omega
  simp only [Atoi, hplus, hminus, Bool.or_self, Bool.false_eq_true, if_false,
    List.isEmpty_cons, hall, Bool.not_true, Bool.or_false, Bool.false_or,
    if_neg hrange]

/-! ### From validity to parse success -/

theorem matchCore_shape (core : List Char) (h : matchCore core = true) :
    ∃ p0 p1 p2, splitOnChar '.' core = [p0, p1, p2] ∧ matchNumeric p0 = true ∧
      matchNumeric p1 = true ∧ matchNumeric p2 = true := by
  unfold matchCore at h
  rcases hsp : splitOnChar '.' core with _ | ⟨p0, _ | ⟨p1, _ | ⟨p2, _ | ⟨p3, rest⟩⟩⟩⟩ <;>
    rw [hsp] at h
  · exact Bool.noConfusion h
  · exact Bool.noConfusion h
  · exact Bool.noConfusion h
  · have h' : ((matchNumeric p0 && matchNumeric p1) && matchNumeric p2) = true := h
    simp only [Bool.and_eq_true] at h'
    exact ⟨p0, p1, p2, rfl, h'.1.1, h'.1.2, h'.2⟩
  · exact Bool.noConfusion h

theorem smallCore_parts (cs core p0 p1 p2 : List Char) (hco : coreOf cs = core)
    (hsp : splitOnChar '.' core = [p0, p1, p2]) (h : smallCore cs = true) :
    p0.length ≤ 18 ∧ p1.length ≤ 18 ∧ p2.length ≤ 18 := by
  unfold smallCore at h
  rw [hco, hsp] at h
  simp only [List.all_cons, List.all_nil, Bool.and_eq_true, decide_eq_true_eq] at h
  exact ⟨h.1, h.2.1, h.2.2.1⟩

theorem parseCore_ok (core tag p0 p1 p2 : List Char)
    (hsp : splitOnChar '.' core = [p0, p1, p2])
    (h0 : matchNumeric p0 = true) (h1 : matchNumeric p1 = true)
    (h2 : matchNumeric p2 = true)
    (l0 : p0.length ≤ 18) (l1 : p1.length ≤ 18) (l2 : p2.length ≤ 18) :
    parseCore core tag =
      .ok ⟨(digitsToNat p0 : Int), (digitsToNat p1 : Int), (digitsToNat p2 : Int),
        String.mk tag⟩ := by
  simp only [parseCore, hsp, Atoi_ok_of_numeric p0 h0 l0, Atoi_ok_of_numeric p1 h1 l1,
    Atoi_ok_of_numeric p2 h2 l2]

theorem buildVersion_ok_of_valid (s : String) (hval : Valid s = true)
    (hplus : containsChar '+' s.data = false) (hsmall : smallCore s.data = true) :
    ∃ v, buildVersion s = .ok v := by
  have hbp : breakAt '+' s.data = none := (containsChar_false_iff _ _).mp hplus
  have hmain : validMain s.data = true := by
    have h := hval
    unfold Valid validChars at h
    rw [hbp] at h
    exact h
  cases hbm : breakAt '-' s.data with
  | none =>
    have hcontains : containsChar '-' s.data = false :=
      (containsChar_false_iff _ _).mpr hbm
    have hcore : matchCore s.data = true := by
      have h := hmain
      unfold validMain at h
      rw [hbm] at h
      exact h
    have hco : coreOf s.data = s.data := by
      unfold coreOf
      rw [hbm]
    obtain ⟨p0, p1, p2, hsp, h0, h1, h2⟩ := matchCore_shape _ hcore
    obtain ⟨l0, l1, l2⟩ := smallCore_parts s.data s.data p0 p1 p2 hco hsp hsmall
    refine ⟨⟨(digitsToNat p0 : Int), (digitsToNat p1 : Int), (digitsToNat p2 : Int),
      String.mk []⟩, ?_⟩
    simp only [buildVersion, hcontains, Bool.false_eq_true, if_false]
    exact parseCore_ok s.data [] p0 p1 p2 hsp h0 h1 h2 l0 l1 l2
  | some p =>
    obtain ⟨core, pre⟩ := p
    have hcontains : containsChar '-' s.data = true := by
      cases hcc : containsChar '-' s.data with
      | false =>
        have h := (containsChar_false_iff _ _).mp hcc
        rw [hbm] at h
        exact Option.noConfusion h
      | true => rfl
    have hsplitN : splitN2 '-' s.data = [core, pre] := by
      unfold splitN2
      rw [hbm]
    have hcore : matchCore core = true := by
      have h := hmain
      unfold validMain at h
      rw [hbm] at h
      have h' : (matchCore core && matchPrerelease pre) = true := h
      exact ((Bool.and_eq_true _ _).mp h').1
    have hco : coreOf s.data = core := by
      unfold coreOf
      rw [hbm]
    obtain ⟨p0, p1, p2, hsp, h0, h1, h2⟩ := matchCore_shape _ hcore
    obtain ⟨l0, l1, l2⟩ := smallCore_parts s.data core p0 p1 p2 hco hsp hsmall
    refine ⟨⟨(digitsToNat p0 : Int), (digitsToNat p1 : Int), (digitsToNat p2 : Int),
      String.mk pre⟩, ?_⟩
    simp only [buildVersion, hcontains, if_true, hsplitN]
    exact parseCore_ok core pre p0 p1 p2 hsp h0 h1 h2 l0 l1 l2

/-! ### Lemmas about the comparison operations -/

theorem gte_eq_of (v c : String) (a b : semVersion) (hv : Valid v = true)
    (hc : Valid c = true) (ha : buildVersion v = .ok a) (hb : buildVersion c = .ok b) :
    GreaterThanOrEqual v c = (goCompareGe a b, none) := by
  simp only [GreaterThanOrEqual, hv, hc, ha, hb, Bool.not_true, Bool.false_eq_true,
    if_false]

theorem ste_eq_of (v c : String) (a b : semVersion) (hv : Valid v = true)
    (hc : Valid c = true) (ha : buildVersion v = .ok a) (hb : buildVersion c = .ok b) :
    SmallerThanOrEqual v c = (goCompareLe a b, none) := by
  simp only [SmallerThanOrEqual, hv, hc, ha, hb, Bool.not_true, Bool.false_eq_true,
    if_false]

theorem gte_cases (v c : String) :
    (∃ a b, Valid v = true ∧ Valid c = true ∧ buildVersion v = .ok a ∧
      buildVersion c = .ok b ∧ GreaterThanOrEqual v c = (goCompareGe a b, none)) ∨
    (∃ e, GreaterThanOrEqual v c = (false, some e)) := by
  by_cases hv : Valid v = true
  · by_cases hc : Valid c = true
    · cases ha : buildVersion v with
      | error e =>
        right
        exact ⟨e, by simp [GreaterThanOrEqual, hv, hc, ha]⟩
      | ok a =>
        cases hb : buildVersion c with
        | error e =>
          right
          exact ⟨e, by simp [GreaterThanOrEqual, hv, hc, ha, hb]⟩
        | ok b =>
          left
          exact ⟨a, b, hv, hc, rfl, rfl, gte_eq_of v c a b hv hc ha hb⟩
    · right
      simp only [Bool.not_eq_true] at hc
      exact ⟨invalidCompareError c, by simp [GreaterThanOrEqual, hv, hc]⟩
  · right
    simp only [Bool.not_eq_true] at hv
    exact ⟨invalidVersionError v, by simp [GreaterThanOrEqual, hv]⟩

theorem ste_cases (v c : String) :
    (∃ a b, Valid v = true ∧ Valid c = true ∧ buildVersion v = .ok a ∧
      buildVersion c = .ok b ∧ SmallerThanOrEqual v c = (goCompareLe a b, none)) ∨
    (∃ e, SmallerThanOrEqual v c = (false, some e)) := by
  by_cases hv : Valid v = true
  · by_cases hc : Valid c = true
    · cases ha : buildVersion v with
      | error e =>
        right
        exact ⟨e, by simp [SmallerThanOrEqual, hv, hc, ha]⟩
      | ok a =>
        cases hb : buildVersion c with
        | error e =>
          right
          exact ⟨e, by simp [SmallerThanOrEqual, hv, hc, ha, hb]⟩
        | ok b =>
          left
          exact ⟨a, b, hv, hc, rfl, rfl, ste_eq_of v c a b hv hc ha hb⟩
    · right
      simp only [Bool.not_eq_true] at hc
      exact ⟨invalidCompareError c, by simp [SmallerThanOrEqual, hv, hc]⟩
  · right
    simp only [Bool.not_eq_true] at hv
    exact ⟨invalidVersionError v, by simp [SmallerThanOrEqual, hv]⟩

theorem gte_some (v c : String) (e : String)
    (h : (GreaterThanOrEqual v c).2 = some e) :
    GreaterThanOrEqual v c = (false, some e) := by
  rcases gte_cases v c with ⟨a, b, _, _, _, _, heq⟩ | ⟨e', heq⟩
  · rw [heq] at h
    exact Option.noConfusion h
  · rw [heq] at h ⊢
    have : e' = e := Option.some.inj h
    rw [this]

theorem ste_some (v c : String) (e : String)
    (h : (SmallerThanOrEqual v c).2 = some e) :
    SmallerThanOrEqual v c = (false, some e) := by
  rcases ste_cases v c with ⟨a, b, _, _, _, _, heq⟩ | ⟨e', heq⟩
  · rw [heq] at h
    exact Option.noConfusion h
  · rw [heq] at h ⊢
    have : e' = e := Option.some.inj h
    rw [this]

theorem gte_ok_inv (v c : String) (h : (GreaterThanOrEqual v c).2 = none) :
    ∃ a b, Valid v = true ∧ Valid c = true ∧ buildVersion v = .ok a ∧
      buildVersion c = .ok b ∧ GreaterThanOrEqual v c = (goCompareGe a b, none) := by
  rcases gte_cases v c with h1 | ⟨e, heq⟩
  · exact h1
  · rw [heq] at h
    exact Option.noConfusion h

theorem ste_ok_inv (v c : String) (h : (SmallerThanOrEqual v c).2 = none) :
    ∃ a b, Valid v = true ∧ Valid c = true ∧ buildVersion v = .ok a ∧
      buildVersion c = .ok b ∧ SmallerThanOrEqual v c = (goCompareLe a b, none) := by
  rcases ste_cases v c with h1 | ⟨e, heq⟩
  · exact h1
  · rw [heq] at h
    exact Option.noConfusion h

/-! ### The comparison chains as lexicographic orders -/

theorem goCompareGe_iff (a b : semVersion) :
    goCompareGe a b = true ↔
      (b.major < a.major ∨ (a.major = b.major ∧
        (b.minor < a.minor ∨ (a.minor = b.minor ∧ b.revision ≤ a.revision)))) := by
  unfold goCompareGe
  split_ifs with h1 h2 h3 h4 <;> simp <;> omega

theorem goCompareLe_iff (a b : semVersion) :
    goCompareLe a b = true ↔
      (a.major < b.major ∨ (a.major = b.major ∧
        (a.minor < b.minor ∨ (a.minor = b.minor ∧ a.revision ≤ b.revision)))) := by
  unfold goCompareLe
  split_ifs with h1 h2 h3 h4 <;> simp <;> omega

theorem goCompareGe_refl (a : semVersion) : goCompareGe a a = true := by
  rw [goCompareGe_iff]
  omega

theorem goCompareLe_refl (a : semVersion) : goCompareLe a a = true := by
  rw [goCompareLe_iff]
  omega

theorem goCompareGe_trans (a b c : semVersion) (h1 : goCompareGe a b = true)
    (h2 : goCompareGe b c = true) : goCompareGe a c = true := by
  rw [goCompareGe_iff] at h1 h2 ⊢
  omega

/-! ### Which error `buildVersion` produces -/

theorem string_data_append (a b : String) : (a ++ b).data = a.data ++ b.data := by
  cases a
  cases b
  rfl

theorem Atoi_error_shape (l : List Char) (e : String) (h : Atoi l = .error e) :
    e = atoiSyntaxError l ∨ e = atoiRangeError l := by
  simp only [Atoi] at h
  split at h
  · left
    exact (Except.error.inj h).symm
  · split at h
    · split at h
      · right
        exact (Except.error.inj h).symm
      · exact Except.noConfusion h
    · split at h
      · right
        exact (Except.error.inj h).symm
      · exact Except.noConfusion h

theorem atoi_msg_ne_partsCountError (s : List Char) (tail : String) (n : Nat) :
    ("strconv.Atoi: parsing \"" ++ String.mk s) ++ tail ≠ partsCountError n := by
  intro h
  have hd := congrArg String.data h
  unfold partsCountError at hd
  rw [string_data_append, string_data_append, string_data_append] at hd
  have e1 : "strconv.Atoi: parsing \"".data =
      's' :: "trconv.Atoi: parsing \"".data := rfl
  have e2 : "versions should be 2 or 3 parts. Got ".data =
      'v' :: "ersions should be 2 or 3 parts. Got ".data := rfl
  rw [e1, e2, List.cons_append, List.cons_append, List.cons_append] at hd
  injection hd with hhead _
  exact absurd hhead (by decide)

theorem atoiSyntaxError_ne_partsCountError (s : List Char) (n : Nat) :
    atoiSyntaxError s ≠ partsCountError n :=
  atoi_msg_ne_partsCountError s "\": invalid syntax" n

theorem atoiRangeError_ne_partsCountError (s : List Char) (n : Nat) :
    atoiRangeError s ≠ partsCountError n :=
  atoi_msg_ne_partsCountError s "\": value out of range" n

theorem Atoi_error_ne_partsCountError (l : List Char) (e : String) (n : Nat)
    (h : Atoi l = .error e) : e ≠ partsCountError n := by
  rcases Atoi_error_shape l e h with he | he <;> rw [he]
  · exact atoiSyntaxError_ne_partsCountError l n
  · exact atoiRangeError_ne_partsCountError l n

theorem parseCore_partsError_iff (core tag : List Char) :
    (∃ n, parseCore core tag = .error (partsCountError n)) ↔
      ((splitOnChar '.' core).length ≠ 2 ∧ (splitOnChar '.' core).length ≠ 3) := by
  rcases hsp : splitOnChar '.' core with _ | ⟨p0, _ | ⟨p1, _ | ⟨p2, _ | ⟨p3, rest⟩⟩⟩⟩
  · constructor
    · intro _
      exact ⟨by decide, by decide⟩
    · intro _
      exact ⟨0, by simp [parseCore, hsp, partsCountError]⟩
  · constructor
    · intro _
      exact ⟨by simp, by simp⟩
    · intro _
      exact ⟨1, by simp [parseCore, hsp, partsCountError]⟩
  · simp only [List.length_cons, List.length_nil, ne_eq, Nat.reduceAdd]
    constructor
    · rintro ⟨n, hn⟩
      simp only [parseCore, hsp] at hn
      exfalso
      cases h0 : Atoi p0 with
      | error e =>
        rw [h0] at hn
        exact Atoi_error_ne_partsCountError p0 e n h0 (Except.error.inj hn)
      | ok m0 =>
        rw [h0] at hn
        cases h1 : Atoi p1 with
        | error e =>
          rw [h1] at hn
          exact Atoi_error_ne_partsCountError p1 e n h1 (Except.error.inj hn)
        | ok m1 =>
          rw [h1] at hn
          exact Except.noConfusion hn
    · rintro ⟨h2, _⟩
      exact absurd trivial h2
  · simp only [List.length_cons, List.length_nil, ne_eq, Nat.reduceAdd]
    constructor
    · rintro ⟨n, hn⟩
      simp only [parseCore, hsp] at hn
      exfalso
      cases h0 : Atoi p0 with
      | error e =>
        rw [h0] at hn
        exact Atoi_error_ne_partsCountError p0 e n h0 (Except.error.inj hn)
      | ok m0 =>
        rw [h0] at hn
        cases h1 : Atoi p1 with
        | error e =>
          rw [h1] at hn
          exact Atoi_error_ne_partsCountError p1 e n h1 (Except.error.inj hn)
        | ok m1 =>
          rw [h1] at hn
          cases h2 : Atoi p2 with
          | error e =>
            rw [h2] at hn
            exact Atoi_error_ne_partsCountError p2 e n h2 (Except.error.inj hn)
          | ok m2 =>
            rw [h2] at hn
            exact Except.noConfusion hn
    · rintro ⟨_, h3⟩
      exact absurd trivial h3
  · constructor
    · intro _
      simp only [List.length_cons, ne_eq]
      omega
    · intro _
      refine ⟨(p0 :: p1 :: p2 :: p3 :: rest).length, ?_⟩
      simp only [parseCore, hsp]

theorem buildVersion_partsError_iff (s : String) :
    (∃ n, buildVersion s = .error (partsCountError n)) ↔
      ((splitOnChar '.' (coreOf s.data)).length ≠ 2 ∧
        (splitOnChar '.' (coreOf s.data)).length ≠ 3) := by
  cases hcc : containsChar '-' s.data with
  | false =>
    have hbm : breakAt '-' s.data = none := (containsChar_false_iff _ _).mp hcc
    have hco : coreOf s.data = s.data := by
      unfold coreOf
      rw [hbm]
    have hbv : buildVersion s = parseCore s.data [] := by
      simp [buildVersion, hcc]
    rw [hco, hbv]
    exact parseCore_partsError_iff s.data []
  | true =>
    obtain ⟨a, b, hbm⟩ := containsChar_true_break '-' s.data hcc
    have hco : coreOf s.data = a := by
      unfold coreOf
      rw [hbm]
    have hbv : buildVersion s = parseCore a b := by
      simp only [buildVersion, hcc, if_true]
      rw [show splitN2 '-' s.data = [a, b] by unfold splitN2; rw [hbm]]
  -- the two-chunk branch of buildVersion
    rw [hco, hbv]
    exact parseCore_partsError_iff a b

/-! ### The claims -/

/-- Claim C1, counterexample: the claim fails as stated.  The string
"1.2.3+build" passes `Valid` (the pattern accepts build metadata), yet
`buildVersion` never strips a `+` suffix, so `strconv.Atoi("3+build")`
fails and the parse-error propagation branch of `GreaterThanOrEqual` is
reached on two validated operands. -/
theorem valid_build_metadata_not_parsed :
    Valid "1.2.3+build" = true ∧
    exceptIsOk (buildVersion "1.2.3+build") = false ∧
    (GreaterThanOrEqual "1.2.3+build" "1.0.0").2 ≠ none := by
  decide

/-- Claim C1, amended: for every string that passes `Valid`, contains no
`'+'` (no build metadata), and whose core fields each have at most 18
digits (so `Atoi` cannot overflow a 64-bit int), `buildVersion` succeeds;
consequently, for two such operands the parse-error propagation branches
of `GreaterThanOrEqual` and `SmallerThanOrEqual` are unreachable. -/
theorem valid_noplus_small_parses (version compare : String)
    (h1 : Valid version = true) (h2 : Valid compare = true)
    (p1 : containsChar '+' version.data = false)
    (p2 : containsChar '+' compare.data = false)
    (s1 : smallCore version.data = true) (s2 : smallCore compare.data = true) :
    (∃ a, buildVersion version = .ok a) ∧ (∃ b, buildVersion compare = .ok b) ∧
    (GreaterThanOrEqual version compare).2 = none ∧
    (SmallerThanOrEqual version compare).2 = none := by
  obtain ⟨a, ha⟩ := buildVersion_ok_of_valid version h1 p1 s1
  obtain ⟨b, hb⟩ := buildVersion_ok_of_valid compare h2 p2 s2
  refine ⟨⟨a, ha⟩, ⟨b, hb⟩, ?_, ?_⟩
  · rw [gte_eq_of version compare a b h1 h2 ha hb]
  · rw [ste_eq_of version compare a b h1 h2 ha hb]

/-- Claim C1, witness: the amended theorem applied to "1.2.3" and
"4.5.6-rc.1". -/
theorem valid_noplus_small_parses_witness :
    (∃ a, buildVersion "1.2.3" = .ok a) ∧ (∃ b, buildVersion "4.5.6-rc.1" = .ok b) ∧
    (GreaterThanOrEqual "1.2.3" "4.5.6-rc.1").2 = none ∧
    (SmallerThanOrEqual "1.2.3" "4.5.6-rc.1").2 = none :=
  valid_noplus_small_parses "1.2.3" "4.5.6-rc.1" (by decide) (by decide) (by decide)
    (by decide) (by decide) (by decide)

/-- Claim C2: when both operands pass `Valid` and both parse,
`GreaterThanOrEqual` returns, without error, exactly the lexicographic
comparison of the `(major, minor, revision)` tuples: differing majors
decide by `major >`, then differing minors by `minor >`, and otherwise
`revision ≥` decides. -/
theorem greaterThanOrEqual_lex (version compare : String) (a b : semVersion)
    (hv : Valid version = true) (hc : Valid compare = true)
    (ha : buildVersion version = .ok a) (hb : buildVersion compare = .ok b) :
    GreaterThanOrEqual version compare =
      ((if a.major ≠ b.major then decide (a.major > b.major)
        else if a.minor ≠ b.minor then decide (a.minor > b.minor)
        else decide (a.revision ≥ b.revision)), none) := by
  rw [gte_eq_of version compare a b hv hc ha hb]
  refine congrArg (fun x => (x, none)) ?_
  rw [Bool.eq_iff_iff, goCompareGe_iff]
  split_ifs with hmaj hmin <;>
    first
      | (constructor
         · intro h
           simp only [decide_eq_true_eq]
           omega
         · intro h
           simp only [decide_eq_true_eq] at h
           omega)

/-- Claim C2, witness: the theorem applied to "2.3.4" and "2.3.1". -/
theorem greaterThanOrEqual_lex_witness :
    GreaterThanOrEqual "2.3.4" "2.3.1" = (true, none) := by
  have h := greaterThanOrEqual_lex "2.3.4" "2.3.1" ⟨2, 3, 4, ""⟩ ⟨2, 3, 1, ""⟩
    (by decide) (by decide) (by decide) (by decide)
  rw [h]
  decide

/-- Claim C3: when both operands pass `Valid` and both parse,
`SmallerThanOrEqual` returns, without error, the mirror-image
lexicographic comparison: a strictly greater major yields `false`, a
strictly smaller one `true`, then minors the same way, and otherwise
`revision ≤` decides. -/
theorem smallerThanOrEqual_lex (version compare : String) (a b : semVersion)
    (hv : Valid version = true) (hc : Valid compare = true)
    (ha : buildVersion version = .ok a) (hb : buildVersion compare = .ok b) :
    SmallerThanOrEqual version compare =
      ((if a.major > b.major then false
        else if a.major < b.major then true
        else if a.minor > b.minor then false
        else if a.minor < b.minor then true
        else decide (a.revision ≤ b.revision)), none) := by
  rw [ste_eq_of version compare a b hv hc ha hb]
  refine congrArg (fun x => (x, none)) ?_
  rw [Bool.eq_iff_iff, goCompareLe_iff]
  split_ifs with h1 h2 h3 h4 <;>
    first
      | (simp only [Bool.false_eq_true, iff_false]
         omega)
      | (simp only [iff_true]
         omega)
      | (constructor
         · intro h
           simp only [decide_eq_true_eq]
           omega
         · intro h
           simp only [decide_eq_true_eq] at h
           omega)

/-- Claim C3, witness: the theorem applied to "0.0.1" and "0.0.2". -/
theorem smallerThanOrEqual_lex_witness :
    SmallerThanOrEqual "0.0.1" "0.0.2" = (true, none) := by
  have h := smallerThanOrEqual_lex "0.0.1" "0.0.2" ⟨0, 0, 1, ""⟩ ⟨0, 0, 2, ""⟩
    (by decide) (by decide) (by decide) (by decide)
  rw [h]
  decide

/-- Claim C4: `Valid` is a total boolean predicate (it is a Lean `Bool`
function, defined on every string) deciding the anchored grammar; it
accepts the four listed well-formed strings and rejects the short
forms, the trailing dash, the empty string, and a leading zero in any
core field, while "0.2.3" stays accepted. -/
theorem valid_examples :
    Valid "0.0.0" = true ∧ Valid "1.2.3" = true ∧ Valid "1.9.18-hotfix" = true ∧
    Valid "10.5.7-dashes-and.dots" = true ∧ Valid "9" = false ∧
    Valid "2.0" = false ∧ Valid "8." = false ∧ Valid "3.8.2-" = false ∧
    Valid "" = false ∧ Valid "01.2.3" = false ∧ Valid "1.02.3" = false ∧
    Valid "1.2.03" = false ∧ Valid "0.2.3" = true := by
  decide

/-- Claim C5: with an empty `endv`, `InRange` returns exactly the result
(boolean and error) of `GreaterThanOrEqual version start` and never
touches `endv`; with a non-empty `endv` it returns the conjunction of
the two bound checks, propagating the first failure of either. -/
theorem inRange_decomposition (version start endv : String) :
    (InRange version start "" = GreaterThanOrEqual version start) ∧
    (endv ≠ "" →
      ((GreaterThanOrEqual version start).2 = none →
        (SmallerThanOrEqual version endv).2 = none →
        InRange version start endv =
          ((GreaterThanOrEqual version start).1 && (SmallerThanOrEqual version endv).1,
            none)) ∧
      (∀ err, (GreaterThanOrEqual version start).2 = some err →
        InRange version start endv = (false, some err)) ∧
      (∀ err, (GreaterThanOrEqual version start).2 = none →
        (SmallerThanOrEqual version endv).2 = some err →
        InRange version start endv = (false, some err))) := by
  constructor
  · rcases hg : GreaterThanOrEqual version start with ⟨g, e⟩
    cases e with
    | none => simp [InRange, hg]
    | some err =>
      have hf := gte_some version start err (by rw [hg])
      rw [hg] at hf
      injection hf with hgf _
      subst hgf
      simp [InRange, hg]
  · intro hne
    refine ⟨?_, ?_, ?_⟩
    · intro hgn hsn
      rcases hg : GreaterThanOrEqual version start with ⟨g, e⟩
      rw [hg] at hgn
      simp only at hgn
      subst hgn
      rcases hs : SmallerThanOrEqual version endv with ⟨l, f⟩
      rw [hs] at hsn
      simp only at hsn
      subst hsn
      simp [InRange, hg, hs, hne]
    · intro err herr
      have hf := gte_some version start err herr
      simp [InRange, hf]
    · intro err hgn hserr
      rcases hg : GreaterThanOrEqual version start with ⟨g, e⟩
      rw [hg] at hgn
      simp only at hgn
      subst hgn
      have hsf := ste_some version endv err hserr
      simp [InRange, hg, hsf, hne]

/-- Claim C5, witness: both conjuncts instantiated at "1.2.3" between
"1.0.0" and "2.0.0". -/
theorem inRange_decomposition_witness :
    InRange "1.2.3" "1.0.0" "" = GreaterThanOrEqual "1.2.3" "1.0.0" ∧
    InRange "1.2.3" "1.0.0" "2.0.0" = (true, none) := by
  have h := inRange_decomposition "1.2.3" "1.0.0" "2.0.0"
  refine ⟨h.1, ?_⟩
  have h2 := (h.2 (by decide)).1 (by decide) (by decide)
  rw [h2]
  decide

/-- Claim C6: whenever an operand of `GreaterThanOrEqual`,
`SmallerThanOrEqual`, or `InRange` (restricted to the bounds it actually
checks) fails `Valid`, the call returns the boolean `false` together
with an error carrying the failing operand's literal value (`version`
for the first operand, `compare` for the second; `InRange` reports its
bounds through the inner calls, so `start` and a checked `endv` are
reported as `compare`); the first operand is checked before the
second. -/
theorem invalid_operand_errors (v c start endv : String) :
    (Valid v = false →
      GreaterThanOrEqual v c = (false, some (invalidVersionError v)) ∧
      SmallerThanOrEqual v c = (false, some (invalidVersionError v)) ∧
      InRange v start endv = (false, some (invalidVersionError v))) ∧
    (Valid v = true → Valid c = false →
      GreaterThanOrEqual v c = (false, some (invalidCompareError c)) ∧
      SmallerThanOrEqual v c = (false, some (invalidCompareError c))) ∧
    (Valid v = true → Valid start = false →
      InRange v start endv = (false, some (invalidCompareError start))) ∧
    (endv ≠ "" → Valid endv = false → (GreaterThanOrEqual v start).2 = none →
      InRange v start endv = (false, some (invalidCompareError endv))) := by
  refine ⟨?_, ?_, ?_, ?_⟩
  · intro hv
    have hg2 : GreaterThanOrEqual v start = (false, some (invalidVersionError v)) := by
      simp [GreaterThanOrEqual, hv]
    exact ⟨by simp [GreaterThanOrEqual, hv], by simp [SmallerThanOrEqual, hv],
      by simp [InRange, hg2]⟩
  · intro hv hc
    exact ⟨by simp [GreaterThanOrEqual, hv, hc], by simp [SmallerThanOrEqual, hv, hc]⟩
  · intro hv hstart
    have hg : GreaterThanOrEqual v start = (false, some (invalidCompareError start)) := by
      simp [GreaterThanOrEqual, hv, hstart]
    simp [InRange, hg]
  · intro hne hend hgn
    obtain ⟨a, b, hv, hs, ha, hb, heq⟩ := gte_ok_inv v start hgn
    have hste : SmallerThanOrEqual v endv = (false, some (invalidCompareError endv)) := by
      simp [SmallerThanOrEqual, hv, hend]
    simp [InRange, heq, hne, hste]

/-- Claim C6, witness: the invalid string "8." as first operand, second
operand, and upper bound. -/
theorem invalid_operand_errors_witness :
    GreaterThanOrEqual "8." "1.2.3" = (false, some (invalidVersionError "8.")) ∧
    GreaterThanOrEqual "1.2.3" "8." = (false, some (invalidCompareError "8.")) ∧
    InRange "1.2.3" "1.0.0" "8." = (false, some (invalidCompareError "8.")) := by
  refine ⟨?_, ?_, ?_⟩
  · exact ((invalid_operand_errors "8." "1.2.3" "1.0.0" "").1 (by decide)).1
  · exact ((invalid_operand_errors "1.2.3" "8." "1.0.0" "").2.1 (by decide) (by decide)).1
  · exact (invalid_operand_errors "1.2.3" "0.0.0" "1.0.0" "8.").2.2.2 (by decide)
      (by decide) (by decide)

/-- Claim C7, counterexample: the claim fails as stated.  The string
"4.5.6+exp" passes `Valid`, yet both self-comparisons return a parse
error (with boolean `false`) instead of `true` without error, because
`buildVersion` chokes on the build-metadata suffix. -/
theorem reflexivity_fails_on_build_metadata :
    Valid "4.5.6+exp" = true ∧
    GreaterThanOrEqual "4.5.6+exp" "4.5.6+exp" ≠ (true, none) ∧
    SmallerThanOrEqual "4.5.6+exp" "4.5.6+exp" ≠ (true, none) := by
  decide

/-- Claim C7, amended: reflexivity holds for every string that passes
`Valid` and that `buildVersion` parses successfully: both
`GreaterThanOrEqual v v` and `SmallerThanOrEqual v v` return `true`
without error. -/
theorem reflexivity_of_parsed (v : String) (a : semVersion)
    (hv : Valid v = true) (ha : buildVersion v = .ok a) :
    GreaterThanOrEqual v v = (true, none) ∧ SmallerThanOrEqual v v = (true, none) := by
  rw [gte_eq_of v v a a hv hv ha ha, ste_eq_of v v a a hv hv ha ha,
    goCompareGe_refl, goCompareLe_refl]
  exact ⟨rfl, rfl⟩

/-- Claim C7, witness: reflexivity at the valid, parseable
"7.8.9-rc". -/
theorem reflexivity_of_parsed_witness :
    GreaterThanOrEqual "7.8.9-rc" "7.8.9-rc" = (true, none) ∧
    SmallerThanOrEqual "7.8.9-rc" "7.8.9-rc" = (true, none) :=
  reflexivity_of_parsed "7.8.9-rc" ⟨7, 8, 9, "rc"⟩ (by decide) (by decide)

/-- Claim C8: the tag never participates in ordering; two valid strings
parsing to the same `(major, minor, revision)` triple compare as equal:
both operations return `true` without error in either argument order. -/
theorem tag_independence (x y : String) (a b : semVersion)
    (hx : Valid x = true) (hy : Valid y = true)
    (ha : buildVersion x = .ok a) (hb : buildVersion y = .ok b)
    (h1 : a.major = b.major) (h2 : a.minor = b.minor) (h3 : a.revision = b.revision) :
    GreaterThanOrEqual x y = (true, none) ∧ GreaterThanOrEqual y x = (true, none) ∧
    SmallerThanOrEqual x y = (true, none) ∧ SmallerThanOrEqual y x = (true, none) := by
  have hge1 : goCompareGe a b = true := by
    rw [goCompareGe_iff]
    omega
  have hge2 : goCompareGe b a = true := by
    rw [goCompareGe_iff]
    omega
  have hle1 : goCompareLe a b = true := by
    rw [goCompareLe_iff]
    omega
  have hle2 : goCompareLe b a = true := by
    rw [goCompareLe_iff]
    omega
  rw [gte_eq_of x y a b hx hy ha hb, gte_eq_of y x b a hy hx hb ha,
    ste_eq_of x y a b hx hy ha hb, ste_eq_of y x b a hy hx hb ha,
    hge1, hge2, hle1, hle2]
  exact ⟨rfl, rfl, rfl, rfl⟩

/-- Claim C8, witness: "1.2.3-alpha" and "1.2.3-beta" compare equal in
all four directions. -/
theorem tag_independence_witness :
    GreaterThanOrEqual "1.2.3-alpha" "1.2.3-beta" = (true, none) ∧
    GreaterThanOrEqual "1.2.3-beta" "1.2.3-alpha" = (true, none) ∧
    SmallerThanOrEqual "1.2.3-alpha" "1.2.3-beta" = (true, none) ∧
    SmallerThanOrEqual "1.2.3-beta" "1.2.3-alpha" = (true, none) :=
  tag_independence "1.2.3-alpha" "1.2.3-beta" ⟨1, 2, 3, "alpha"⟩ ⟨1, 2, 3, "beta"⟩
    (by decide) (by decide) (by decide) (by decide) rfl rfl rfl

/-- Claim C9: `buildVersion` accepts a dash-free two-part core "a.b"
(major `a`, minor `b`, revision defaulting to 0) even though `Valid`
rejects two-part strings, and it fails with the parts-count error
exactly when the tag-stripped core splits on `.` into a number of parts
other than 2 or 3. -/
theorem parser_two_part_asymmetry :
    (Valid "1.2" = false ∧ buildVersion "1.2" = .ok ⟨1, 2, 0, ""⟩) ∧
    (∀ (s : String) (p0 p1 : List Char) (m0 m1 : Int),
      containsChar '-' s.data = false → splitOnChar '.' s.data = [p0, p1] →
      Atoi p0 = .ok m0 → Atoi p1 = .ok m1 →
      buildVersion s = .ok ⟨m0, m1, 0, ""⟩) ∧
    (∀ s : String, (∃ n, buildVersion s = .error (partsCountError n)) ↔
      ((splitOnChar '.' (coreOf s.data)).length ≠ 2 ∧
        (splitOnChar '.' (coreOf s.data)).length ≠ 3)) := by
  refine ⟨⟨by decide, by decide⟩, ?_, buildVersion_partsError_iff⟩
  intro s p0 p1 m0 m1 hcc hsp h0 h1
  simp only [buildVersion, hcc, Bool.false_eq_true, if_false, parseCore, hsp, h0, h1]

/-- Claim C9, witness: the two-part branch applied to "7.9", and the
parts-count characterization applied to the four-part "1.2.3.4". -/
theorem parser_two_part_asymmetry_witness :
    buildVersion "7.9" = .ok ⟨7, 9, 0, ""⟩ ∧
    (∃ n, buildVersion "1.2.3.4" = .error (partsCountError n)) := by
  constructor
  · exact parser_two_part_asymmetry.2.1 "7.9" ['7'] ['9'] 7 9 (by decide) (by decide)
      (by decide) (by decide)
  · exact (parser_two_part_asymmetry.2.2 "1.2.3.4").mpr ⟨by decide, by decide⟩

/-- Claim C10: transitivity.  When `GreaterThanOrEqual a b`,
`GreaterThanOrEqual b c` and `GreaterThanOrEqual a c` all succeed
without error and the first two return `true`, so does the third. -/
theorem greaterThanOrEqual_trans (a b c : String)
    (hab : GreaterThanOrEqual a b = (true, none))
    (hbc : GreaterThanOrEqual b c = (true, none))
    (hac : (GreaterThanOrEqual a c).2 = none) :
    GreaterThanOrEqual a c = (true, none) := by
  obtain ⟨va, vb, hva, hvb, hba, hbb, heqab⟩ := gte_ok_inv a b (by rw [hab])
  obtain ⟨vb', vc, hvb', hvc, hbb', hbc', heqbc⟩ := gte_ok_inv b c (by rw [hbc])
  obtain ⟨va', vc', hva', hvc', hba', hbc'', heqac⟩ := gte_ok_inv a c hac
  have hvbeq : vb' = vb := by
    rw [hbb] at hbb'
    exact (Except.ok.inj hbb').symm
  have hvaeq : va' = va := by
    rw [hba] at hba'
    exact (Except.ok.inj hba').symm
  have hvceq : vc' = vc := by
    rw [hbc'] at hbc''
    exact (Except.ok.inj hbc'').symm
  rw [heqab] at hab
  injection hab with h1 _
  rw [heqbc] at hbc
  injection hbc with h2 _
  rw [hvbeq] at h2
  rw [heqac, hvaeq, hvceq, goCompareGe_trans va vb vc h1 h2]

/-- Claim C10, witness: the chain "3.0.0" ≥ "2.5.1" ≥ "2.5.0". -/
theorem greaterThanOrEqual_trans_witness :
    GreaterThanOrEqual "3.0.0" "2.5.0" = (true, none) :=
  greaterThanOrEqual_trans "3.0.0" "2.5.1" "2.5.0" (by decide) (by decide) (by decide)

end Semver
